import Mathlib

/-!
# Bullwhip simulator: formal model

A shallow embedding of the single-file Streamlit bullwhip simulator
(`code.py`).  The mutable `st.session_state` becomes the `GameState`
structure; the order-form submit handler becomes the pure transition
`submitOrder`; the phased demand generator becomes
`generate_phased_demand`, parameterised by an oracle supplying the
Gaussian draws; the post-game analysis becomes `bwe_index` over exact
rationals (pandas sample variance, `ddof = 1`).  Python ints are `ℤ`
(or `ℕ` for the round counter), floats are `ℚ`.
-/

namespace Bullwhip

/-- Constant `TOTAL_ROUNDS = 20` from the game configuration block. -/
def TOTAL_ROUNDS : ℕ := 20

/-- Constant `INITIAL_INVENTORY = 40`. -/
def INITIAL_INVENTORY : ℤ := 40

/-- Constant `HOLDING_COST = 2.0` dollars per unit held. -/
def HOLDING_COST : ℚ := 2

/-- Constant `BACKORDER_COST = 5.0` dollars per unit backordered. -/
def BACKORDER_COST : ℚ := 5

/-- Constant `LEAD_TIME = 3` weeks. -/
def LEAD_TIME : ℕ := 3

/-- Python `int(...)` truncates toward zero: floor for non-negative
arguments, ceiling for negative ones. -/
def pyInt (q : ℚ) : ℤ := if 0 ≤ q then ⌊q⌋ else ⌈q⌉

/-- Function `generate_phased_demand(total_weeks)`: one value per week
`1..total_weeks`; the Gaussian sampling `random.gauss(mu, sigma)` is
modelled by an oracle `gauss mu sigma week` giving the real-valued draw
for that week, so the phase structure, the `int(...)` conversion and
the `max(0, val)` floor are kept exactly. -/
def generate_phased_demand (total_weeks : ℕ) (gauss : ℚ → ℚ → ℕ → ℚ) : List ℤ :=
  (List.range total_weeks).map (fun i =>
    let week := i + 1
    let val : ℤ :=
      if week ≤ 5 then pyInt (gauss 12 2 week)
      else if week ≤ 12 then pyInt (gauss 32 5 week)
      else pyInt (gauss 8 2 week)
    max 0 val)

/-- The relevant fields of `st.session_state`: the round counter, the
ledger (inventory, backorders, total cost), the in-transit order
pipeline, the demand scenario for the session, the UI default
`last_order`, the six parallel history columns, and the `game_over`
flag. -/
structure GameState where
  round : ℕ
  inventory : ℤ
  backorders : ℤ
  total_cost : ℚ
  order_pipeline : List ℤ
  demand_seq : List ℤ
  last_order : ℤ
  histWeek : List ℕ
  histDemand : List ℤ
  histOrders : List ℤ
  histInventory : List ℤ
  histBackorders : List ℤ
  histCost : List ℚ
  game_over : Bool
  deriving DecidableEq

/-- Function `initialize_game()`, with the freshly generated demand scenario
passed in as a parameter. -/
def initialize_game (demand : List ℤ) : GameState where
  round := 1
  inventory := INITIAL_INVENTORY
  backorders := 0
  total_cost := 0
  order_pipeline := [12, 12, 12]
  demand_seq := demand
  last_order := 12
  histWeek := []
  histDemand := []
  histOrders := []
  histInventory := []
  histBackorders := []
  histCost := []
  game_over := false

/-- The `if submitted:` branch of the order form.  The form is only
rendered on the `else` side of `if st.session_state.game_over:`, so a
terminal session admits no transition at all; this is modelled by
returning the state unchanged when `game_over` is set.  Otherwise the
body follows the handler line by line: pop the front of the pipeline,
append the new order, resolve the net position against the weekly
demand, compute the cost, append one row to every history column (the
`Inventory` and `Backorders` columns receive the values held *before*
this weekly update, exactly as the code does), mutate the ledger, and
advance the round or flip `game_over`. -/
def submitOrder (s : GameState) (order_amount : ℤ) : GameState :=
  if s.game_over then s
  else
    let current_week := s.round
    let current_demand := s.demand_seq.getD (current_week - 1) 0
    let received := s.order_pipeline.headD 0
    let pipeline := s.order_pipeline.tail ++ [order_amount]
    let net_inventory := s.inventory - s.backorders + received
    let new_net_inventory := net_inventory - current_demand
    let new_inventory := if 0 < new_net_inventory then new_net_inventory else 0
    let new_backorders := if 0 < new_net_inventory then 0 else |new_net_inventory|
    let cost_this_week := (new_inventory : ℚ) * HOLDING_COST + (new_backorders : ℚ) * BACKORDER_COST
    { round := if TOTAL_ROUNDS ≤ current_week then s.round else s.round + 1
      inventory := new_inventory
      backorders := new_backorders
      total_cost := s.total_cost + cost_this_week
      order_pipeline := pipeline
      demand_seq := s.demand_seq
      last_order := order_amount
      histWeek := s.histWeek ++ [current_week]
      histDemand := s.histDemand ++ [current_demand]
      histOrders := s.histOrders ++ [order_amount]
      histInventory := s.histInventory ++ [s.inventory]
      histBackorders := s.histBackorders ++ [s.backorders]
      histCost := s.histCost ++ [cost_this_week]
      game_over := decide (TOTAL_ROUNDS ≤ current_week) }

/-- A whole play-through: fold the submit handler over the sequence of
player orders, starting from a fresh session. -/
def runGame (demand : List ℤ) (orders : List ℤ) : GameState :=
  orders.foldl submitOrder (initialize_game demand)

/-- The `st.number_input("Order Quantity", min_value=0, max_value=1000, ...)`
widget: whatever the player requests, the value the handler receives is
kept inside `[0, 1000]` by the widget itself. -/
def number_input_value (requested : ℤ) : ℤ := max 0 (min 1000 requested)

/-- Arithmetic mean of a list of rationals (`0` on the empty list,
via rational division by zero). -/
def listMean (xs : List ℚ) : ℚ := xs.sum / xs.length

/-- pandas `Series.var()` with its default `ddof = 1`: the sample
variance with denominator `n - 1`. -/
def sampleVar (xs : List ℚ) : ℚ :=
  (xs.map (fun x => (x - listMean xs) ^ 2)).sum / ((xs.length : ℚ) - 1)

/-- The game-over analysis: `order_var / demand_var if demand_var > 0 else 1`,
computed from the `Demand` and `Player_Orders` history columns. -/
def bwe_index (demand orders : List ℤ) : ℚ :=
  let demand_var := sampleVar (demand.map (fun d => (d : ℚ)))
  let order_var := sampleVar (orders.map (fun o => (o : ℚ)))
  if 0 < demand_var then order_var / demand_var else 1

/-- Rounding half-up to the nearest integer, as the phrase of the
specification, "rounded to nearest integer", reads; kept only to
compare with the truncation `pyInt` of the code. -/
def roundNearest (q : ℚ) : ℤ := ⌊q + 1 / 2⌋

/-! ## Helper lemmas -/

/-- A terminal session admits no transition: the submit handler lives
on the non-`game_over` branch of the page. -/
theorem submitOrder_terminal (s : GameState) (o : ℤ) (h : s.game_over = true) :
    submitOrder s o = s := by
  simp [submitOrder, h]

/-- Characterization of the submit handler on a live (non-terminal)
session, with every field spelled out. -/
theorem submitOrder_active (s : GameState) (o : ℤ) (hgo : s.game_over = false) :
    submitOrder s o =
      (let current_demand := s.demand_seq.getD (s.round - 1) 0
       let received := s.order_pipeline.headD 0
       let net := s.inventory - s.backorders + received - current_demand
       let new_inventory := if 0 < net then net else 0
       let new_backorders := if 0 < net then 0 else |net|
       let cost := (new_inventory : ℚ) * HOLDING_COST + (new_backorders : ℚ) * BACKORDER_COST
       { round := if TOTAL_ROUNDS ≤ s.round then s.round else s.round + 1
         inventory := new_inventory
         backorders := new_backorders
         total_cost := s.total_cost + cost
         order_pipeline := s.order_pipeline.tail ++ [o]
         demand_seq := s.demand_seq
         last_order := o
         histWeek := s.histWeek ++ [s.round]
         histDemand := s.histDemand ++ [current_demand]
         histOrders := s.histOrders ++ [o]
         histInventory := s.histInventory ++ [s.inventory]
         histBackorders := s.histBackorders ++ [s.backorders]
         histCost := s.histCost ++ [cost]
         game_over := decide (TOTAL_ROUNDS ≤ s.round) }) := by
  unfold submitOrder
  rw [hgo]
  rfl

/-- Any property preserved by single submissions is preserved by a
whole play-through. -/
theorem foldl_submit_invariant (P : GameState → Prop)
    (step : ∀ s o, P s → P (submitOrder s o)) :
    ∀ (orders : List ℤ) (s : GameState), P s → P (orders.foldl submitOrder s)
  | [], _, hs => hs
  | o :: os, s, hs => foldl_submit_invariant P step os _ (step s o hs)

/-! ## Claim theorems -/

/-- C1: for every non-terminal state with non-negative inventory and
backorders and a non-negative arriving shipment and demand, the weekly
transition computes `net_position = inventory - backorders + received`,
`net_after_demand = net_position - demand`, resolves it into the new
inventory/backorders exactly as specified (`-net_after_demand`, the
`abs` in the code, on the non-positive branch), and adds
`new_inventory * holding_cost + new_backorders * backorder_cost` to the
total cost. -/
theorem ledger_transition_exact (s : GameState) (o : ℤ)
    (hgo : s.game_over = false)
    (hinv : 0 ≤ s.inventory) (hback : 0 ≤ s.backorders)
    (hrecv : 0 ≤ s.order_pipeline.headD 0)
    (hdem : 0 ≤ s.demand_seq.getD (s.round - 1) 0) :
    (submitOrder s o).inventory =
      (if 0 < s.inventory - s.backorders + s.order_pipeline.headD 0
              - s.demand_seq.getD (s.round - 1) 0
       then s.inventory - s.backorders + s.order_pipeline.headD 0
              - s.demand_seq.getD (s.round - 1) 0 else 0)
    ∧ (submitOrder s o).backorders =
      (if 0 < s.inventory - s.backorders + s.order_pipeline.headD 0
              - s.demand_seq.getD (s.round - 1) 0
       then 0
       else -(s.inventory - s.backorders + s.order_pipeline.headD 0
              - s.demand_seq.getD (s.round - 1) 0))
    ∧ (submitOrder s o).total_cost = s.total_cost
        + (((submitOrder s o).inventory : ℚ) * HOLDING_COST
            + ((submitOrder s o).backorders : ℚ) * BACKORDER_COST) := by
  refine ⟨by simp [submitOrder, hgo], ?_, by simp [submitOrder, hgo]⟩
  simp [submitOrder, hgo]
  split_ifs with h
  · rfl
  · rw [abs_of_nonpos (by omega)]
    omega

/-- Witness for C1 at a concrete fresh session with constant demand 50:
net position is `40 - 0 + 12 - 50 = 2 > 0`. -/
theorem ledger_transition_exact_witness :
    ((initialize_game (List.replicate 20 50)).game_over = false)
    ∧ (0 : ℤ) ≤ (initialize_game (List.replicate 20 50)).inventory
    ∧ (0 : ℤ) ≤ (initialize_game (List.replicate 20 50)).backorders
    ∧ (0 : ℤ) ≤ (initialize_game (List.replicate 20 50)).order_pipeline.headD 0
    ∧ (0 : ℤ) ≤ (initialize_game (List.replicate 20 50)).demand_seq.getD
        ((initialize_game (List.replicate 20 50)).round - 1) 0
    ∧ ((submitOrder (initialize_game (List.replicate 20 50)) 12).inventory =
        (if 0 < (initialize_game (List.replicate 20 50)).inventory
                - (initialize_game (List.replicate 20 50)).backorders
                + (initialize_game (List.replicate 20 50)).order_pipeline.headD 0
                - (initialize_game (List.replicate 20 50)).demand_seq.getD
                    ((initialize_game (List.replicate 20 50)).round - 1) 0
         then (initialize_game (List.replicate 20 50)).inventory
                - (initialize_game (List.replicate 20 50)).backorders
                + (initialize_game (List.replicate 20 50)).order_pipeline.headD 0
                - (initialize_game (List.replicate 20 50)).demand_seq.getD
                    ((initialize_game (List.replicate 20 50)).round - 1) 0 else 0)) :=
  ⟨by decide, by decide, by decide, by decide, by decide,
    (ledger_transition_exact (initialize_game (List.replicate 20 50)) 12
      (by decide) (by decide) (by decide) (by decide) (by decide)).1⟩

/-- C2 fails on the code: the history row appended for a round stores
the inventory/backorders of the session *before* the ledger update, not the
post-transition values.  At a fresh session with demand 5 and order 12
the post-transition inventory is `40 - 0 + 12 - 5 = 47`, yet the
appended `Inventory` entry is the pre-transition `40`. -/
theorem history_post_transition_counterexample :
    (submitOrder (initialize_game (List.replicate 20 5)) 12).inventory = 47
    ∧ (submitOrder (initialize_game (List.replicate 20 5)) 12).histInventory = [40]
    ∧ (40 : ℤ) ≠ 47 := by
  decide

/-- C2 amended: every completed round appends the *pre-transition*
snapshot of inventory and backorders to the history, while
`cost_this_week` is computed from the post-transition values. -/
theorem history_records_pre_transition (s : GameState) (o : ℤ)
    (hgo : s.game_over = false) :
    (submitOrder s o).histInventory = s.histInventory ++ [s.inventory]
    ∧ (submitOrder s o).histBackorders = s.histBackorders ++ [s.backorders]
    ∧ (submitOrder s o).histCost = s.histCost
        ++ [((submitOrder s o).inventory : ℚ) * HOLDING_COST
            + ((submitOrder s o).backorders : ℚ) * BACKORDER_COST] := by
  simp [submitOrder, hgo]

/-- Witness for the amended C2 at a fresh session. -/
theorem history_records_pre_transition_witness :
    ((initialize_game (List.replicate 20 5)).game_over = false)
    ∧ (submitOrder (initialize_game (List.replicate 20 5)) 12).histInventory =
        (initialize_game (List.replicate 20 5)).histInventory
          ++ [(initialize_game (List.replicate 20 5)).inventory] :=
  ⟨by decide,
    (history_records_pre_transition (initialize_game (List.replicate 20 5)) 12 (by decide)).1⟩

/-- The ledger well-formedness invariant: inventory and backorders are
non-negative and never simultaneously nonzero. -/
def LedgerOK (s : GameState) : Prop :=
  (s.inventory = 0 ∨ s.backorders = 0) ∧ 0 ≤ s.inventory ∧ 0 ≤ s.backorders

theorem ledgerOK_init (demand : List ℤ) : LedgerOK (initialize_game demand) := by
  simp [LedgerOK, initialize_game, INITIAL_INVENTORY]

theorem ledgerOK_step (s : GameState) (o : ℤ) (h : LedgerOK s) :
    LedgerOK (submitOrder s o) := by
  by_cases hgo : s.game_over
  · rwa [submitOrder_terminal s o hgo]
  · simp only [Bool.not_eq_true] at hgo
    rw [LedgerOK, submitOrder_active s o hgo]
    refine ⟨?_, ?_, ?_⟩ <;> dsimp only <;> split_ifs <;>
      first
        | omega
        | exact abs_nonneg _

/-- C3: after every weekly transition, and initially, at most one of
inventory and backorders is nonzero and both are non-negative — for
every demand scenario and every sequence of non-negative orders. -/
theorem ledger_mutual_exclusivity (demand orders : List ℤ)
    (horders : ∀ o ∈ orders, 0 ≤ o) (hdemand : ∀ d ∈ demand, 0 ≤ d) :
    ((initialize_game demand).inventory = 0 ∨ (initialize_game demand).backorders = 0)
    ∧ 0 ≤ (initialize_game demand).inventory
    ∧ 0 ≤ (initialize_game demand).backorders
    ∧ ((runGame demand orders).inventory = 0 ∨ (runGame demand orders).backorders = 0)
    ∧ 0 ≤ (runGame demand orders).inventory
    ∧ 0 ≤ (runGame demand orders).backorders := by
  have hinit := ledgerOK_init demand
  have hrun : LedgerOK (runGame demand orders) :=
    foldl_submit_invariant LedgerOK (fun s o => ledgerOK_step s o) orders _ hinit
  exact ⟨hinit.1, hinit.2.1, hinit.2.2, hrun.1, hrun.2.1, hrun.2.2⟩

/-- Witness for C3 on a two-round game. -/
theorem ledger_mutual_exclusivity_witness :
    (∀ o ∈ [(12 : ℤ), 30], 0 ≤ o) ∧ (∀ d ∈ [(5 : ℤ), 80], 0 ≤ d)
    ∧ ((runGame [5, 80] [12, 30]).inventory = 0
        ∨ (runGame [5, 80] [12, 30]).backorders = 0) :=
  ⟨by decide, by decide,
    (ledger_mutual_exclusivity [5, 80] [12, 30] (by decide) (by decide)).2.2.2.1⟩

/-- C4 fails on the code: there is no `InvalidOrderError` and no
validation inside the week-advance handler; fed a negative order it
happily mutates the state (the `-5` enters the pipeline, the round
advances, a history row is appended). -/
theorem core_rejects_negative_counterexample :
    (submitOrder (initialize_game (List.replicate 20 5)) (-5)).order_pipeline = [12, 12, -5]
    ∧ (submitOrder (initialize_game (List.replicate 20 5)) (-5)).round = 2
    ∧ (submitOrder (initialize_game (List.replicate 20 5)) (-5)).histOrders = [-5]
    ∧ (initialize_game (List.replicate 20 5)).order_pipeline = [12, 12, 12]
    ∧ (initialize_game (List.replicate 20 5)).round = 1
    ∧ (initialize_game (List.replicate 20 5)).histOrders = [] := by
  decide

/-- C4 amended: non-negativity of the order is enforced only by the
`st.number_input` widget (whose `min_value=0, max_value=1000` keep the
submitted value in `[0, 1000]`); the week-advance handler itself
performs no validation — it records and enqueues whatever integer it
is given. -/
theorem order_validation_ui_only (v : ℤ) (s : GameState) (o : ℤ)
    (hgo : s.game_over = false) :
    0 ≤ number_input_value v
    ∧ number_input_value v ≤ 1000
    ∧ (submitOrder s o).histOrders = s.histOrders ++ [o]
    ∧ (submitOrder s o).order_pipeline = s.order_pipeline.tail ++ [o] := by
  refine ⟨le_max_left _ _, ?_, ?_, ?_⟩
  · exact max_le (by norm_num) (min_le_left _ _)
  · simp [submitOrder, hgo]
  · simp [submitOrder, hgo]

/-- Witness for the amended C4: a requested `-7` is clamped to a
non-negative widget value, while the handler records a raw `-5`. -/
theorem order_validation_ui_only_witness :
    ((initialize_game (List.replicate 20 5)).game_over = false)
    ∧ 0 ≤ number_input_value (-7)
    ∧ (submitOrder (initialize_game (List.replicate 20 5)) (-5)).histOrders
        = (initialize_game (List.replicate 20 5)).histOrders ++ [(-5 : ℤ)] :=
  ⟨by decide,
    (order_validation_ui_only (-7) (initialize_game (List.replicate 20 5)) (-5)
      (by decide)).1,
    (order_validation_ui_only (-7) (initialize_game (List.replicate 20 5)) (-5)
      (by decide)).2.2.1⟩

/-- C5 fails on the code: Python `int(...)` truncates toward zero
rather than rounding to the nearest integer.  With the week-1 Gaussian
draw equal to `12.7`, the generator yields `12`, while rounding to the
nearest integer (then flooring at 0) would yield `13`. -/
theorem demand_round_nearest_counterexample :
    generate_phased_demand 1 (fun _ _ _ => (127 : ℚ) / 10) = [12]
    ∧ max 0 (roundNearest ((127 : ℚ) / 10)) = 13 := by
  constructor
  · norm_num [generate_phased_demand, pyInt]
  · norm_num [roundNearest]

/-- C5 amended: the generator returns exactly `total_weeks` values,
each non-negative, and the week-`w` value is the Gaussian draw for
the phase of `w` (weeks 1–5: N(12,2), weeks 6–12: N(32,5), weeks 13 onward:
N(8,2)) *truncated toward zero* (Python `int`) and then floored at 0. -/
theorem demand_truncation (gauss : ℚ → ℚ → ℕ → ℚ) (total_weeks i : ℕ)
    (h : i < total_weeks) :
    (generate_phased_demand total_weeks gauss).length = total_weeks
    ∧ 0 ≤ (generate_phased_demand total_weeks gauss).getD i 0
    ∧ (generate_phased_demand total_weeks gauss).getD i 0 =
        max 0 (pyInt (if i + 1 ≤ 5 then gauss 12 2 (i + 1)
          else if i + 1 ≤ 12 then gauss 32 5 (i + 1)
          else gauss 8 2 (i + 1))) := by
  have hget : (generate_phased_demand total_weeks gauss).getD i 0 =
      max 0 (pyInt (if i + 1 ≤ 5 then gauss 12 2 (i + 1)
        else if i + 1 ≤ 12 then gauss 32 5 (i + 1)
        else gauss 8 2 (i + 1))) := by
    unfold generate_phased_demand
    rw [List.getD_eq_getElem?_getD, List.getElem?_map, List.getElem?_range h]
    simp only [Option.map_some', Option.getD_some]
    split_ifs <;> rfl
  refine ⟨by simp [generate_phased_demand], ?_, hget⟩
  rw [hget]
  exact le_max_left _ _

/-- Witness for the amended C5 at the constant-zero draw oracle. -/
theorem demand_truncation_witness :
    0 < 1
    ∧ (generate_phased_demand 1 (fun _ _ _ => (0 : ℚ))).length = 1 :=
  ⟨by decide, (demand_truncation (fun _ _ _ => (0 : ℚ)) 1 0 (by decide)).1⟩

/-- The sample variance is never negative, so the `> 0` test in the code
fails exactly on variance `0`. -/
theorem sampleVar_nonneg (xs : List ℚ) : 0 ≤ sampleVar xs := by
  rcases xs with _ | ⟨a, l⟩
  · simp [sampleVar]
  · apply div_nonneg
    · apply List.sum_nonneg
      intro x hx
      obtain ⟨y, _, rfl⟩ := List.mem_map.mp hx
      positivity
    · have h0 : (0 : ℚ) ≤ (l.length : ℚ) := Nat.cast_nonneg _
      rw [List.length_cons]
      push_cast
      linarith

/-- C6: the bullwhip index equals the sample-variance ratio
`var(orders)/var(demand)` whenever the demand variance is nonzero (and
by non-negativity of the sample variance, nonzero means strictly
positive), and the sentinel `1` exactly when the demand variance is 0. -/
theorem bwe_index_variance_ratio (demand orders : List ℤ) :
    0 ≤ sampleVar (demand.map (fun d => (d : ℚ)))
    ∧ bwe_index demand orders =
        (if sampleVar (demand.map (fun d => (d : ℚ))) = 0 then 1
         else sampleVar (orders.map (fun o => (o : ℚ)))
                / sampleVar (demand.map (fun d => (d : ℚ)))) := by
  refine ⟨sampleVar_nonneg _, ?_⟩
  unfold bwe_index
  dsimp only
  by_cases h : sampleVar (demand.map (fun d => (d : ℚ))) = 0
  · rw [if_neg (by rw [h]; exact lt_irrefl 0), if_pos h]
  · have hpos : 0 < sampleVar (demand.map (fun d => (d : ℚ))) :=
      lt_of_le_of_ne (sampleVar_nonneg _) (Ne.symm h)
    rw [if_pos hpos, if_neg h]

/-- The running-sum invariant for the cumulative cost of the ledger. -/
def CostOK (s : GameState) : Prop := s.total_cost = s.histCost.sum

theorem costOK_step (s : GameState) (o : ℤ) (h : CostOK s) :
    CostOK (submitOrder s o) := by
  by_cases hgo : s.game_over
  · rwa [submitOrder_terminal s o hgo]
  · simp only [Bool.not_eq_true] at hgo
    rw [CostOK, submitOrder_active s o hgo]
    dsimp
    rw [List.sum_append, h]
    simp

/-- One submission never decreases the cumulative cost: the weekly
cost is a non-negative combination of the new inventory and the new
backorders. -/
theorem submitOrder_cost_mono (s : GameState) (o : ℤ) :
    s.total_cost ≤ (submitOrder s o).total_cost := by
  by_cases hgo : s.game_over
  · rw [submitOrder_terminal s o hgo]
  · simp only [Bool.not_eq_true] at hgo
    rw [submitOrder_active s o hgo]
    dsimp
    have h1 : (0 : ℤ) ≤ (if 0 < s.inventory - s.backorders + s.order_pipeline.headD 0
        - s.demand_seq.getD (s.round - 1) 0
        then s.inventory - s.backorders + s.order_pipeline.headD 0
          - s.demand_seq.getD (s.round - 1) 0 else 0) := by
      split_ifs <;> omega
    have h2 : (0 : ℤ) ≤ (if 0 < s.inventory - s.backorders + s.order_pipeline.headD 0
        - s.demand_seq.getD (s.round - 1) 0
        then 0 else |s.inventory - s.backorders + s.order_pipeline.headD 0
          - s.demand_seq.getD (s.round - 1) 0|) := by
      split_ifs with hc
      · exact le_refl 0
      · exact abs_nonneg _
    have hc1 : (0 : ℚ) ≤ HOLDING_COST := by norm_num [HOLDING_COST]
    have hc2 : (0 : ℚ) ≤ BACKORDER_COST := by norm_num [BACKORDER_COST]
    have := add_nonneg
      (mul_nonneg (Int.cast_nonneg.mpr h1) hc1)
      (mul_nonneg (Int.cast_nonneg.mpr h2) hc2)
    linarith

/-- C7: the total cost starts at 0, never decreases across a
transition, and always equals the sum of the recorded weekly costs. -/
theorem total_cost_running_sum (demand orders : List ℤ) (s : GameState) (o : ℤ) :
    (initialize_game demand).total_cost = 0
    ∧ (runGame demand orders).total_cost = (runGame demand orders).histCost.sum
    ∧ s.total_cost ≤ (submitOrder s o).total_cost := by
  refine ⟨rfl, ?_, submitOrder_cost_mono s o⟩
  exact foldl_submit_invariant CostOK (fun t p ht => costOK_step t p ht) orders _
    (by simp [CostOK, initialize_game])

/-- C8: the pipeline starts with `LEAD_TIME` entries, each submission
drops exactly the front element and appends exactly the new order at
the back, and hence the length stays `LEAD_TIME` over any
play-through. -/
theorem pipeline_length_invariant (demand orders : List ℤ) (s : GameState) (o : ℤ) :
    (initialize_game demand).order_pipeline.length = LEAD_TIME
    ∧ (submitOrder s o).order_pipeline =
        (if s.game_over then s.order_pipeline else s.order_pipeline.tail ++ [o])
    ∧ (runGame demand orders).order_pipeline.length = LEAD_TIME := by
  refine ⟨by simp [initialize_game, LEAD_TIME], ?_, ?_⟩
  · by_cases hgo : s.game_over
    · simp [submitOrder_terminal s o hgo, hgo]
    · simp only [Bool.not_eq_true] at hgo
      rw [submitOrder_active s o hgo]
      simp [hgo]
  · refine foldl_submit_invariant (fun t => t.order_pipeline.length = LEAD_TIME)
      (fun t p ht => ?_) orders _ (by simp [initialize_game, LEAD_TIME])
    by_cases hgo : t.game_over
    · rwa [submitOrder_terminal t p hgo]
    · simp only [Bool.not_eq_true] at hgo
      rw [submitOrder_active t p hgo]
      dsimp
      simp only [List.length_append, List.length_tail, List.length_singleton,
        LEAD_TIME] at ht ⊢
      omega

/-- The round counter / history / terminal-flag correspondence kept by
every session: while live, `round` is one past the number of recorded
rounds, which is below `TOTAL_ROUNDS`; once terminal, exactly
`TOTAL_ROUNDS` rounds are recorded. -/
def ProgressOK (s : GameState) : Prop :=
  (s.game_over = false → s.round = s.histWeek.length + 1 ∧ s.histWeek.length < TOTAL_ROUNDS)
  ∧ (s.game_over = true → s.histWeek.length = TOTAL_ROUNDS)

theorem progressOK_init (demand : List ℤ) : ProgressOK (initialize_game demand) := by
  simp [ProgressOK, initialize_game, TOTAL_ROUNDS]

theorem progressOK_step (s : GameState) (o : ℤ) (h : ProgressOK s) :
    ProgressOK (submitOrder s o) := by
  by_cases hgo : s.game_over
  · rwa [submitOrder_terminal s o hgo]
  · simp only [Bool.not_eq_true] at hgo
    obtain ⟨hr, hlen⟩ := h.1 hgo
    rw [ProgressOK, submitOrder_active s o hgo]
    dsimp
    simp only [decide_eq_true_eq, decide_eq_false_iff_not, List.length_append,
      List.length_singleton]
    refine ⟨fun hc => ?_, fun hc => ?_⟩
    · rw [if_neg hc]
      omega
    · omega

/-- Number of recorded rounds after a list of submissions: one per
submission, capped at `TOTAL_ROUNDS`. -/
theorem run_histLen : ∀ (orders : List ℤ) (s : GameState), ProgressOK s →
    (orders.foldl submitOrder s).histWeek.length
      = min (s.histWeek.length + orders.length) TOTAL_ROUNDS
  | [], s, hs => by
      have hle : s.histWeek.length ≤ TOTAL_ROUNDS := by
        by_cases hgo : s.game_over
        · exact le_of_eq (hs.2 hgo)
        · simp only [Bool.not_eq_true] at hgo
          exact le_of_lt (hs.1 hgo).2
      simp only [List.foldl_nil, List.length_nil]
      omega
  | o :: os, s, hs => by
      by_cases hgo : s.game_over
      · have hlen := hs.2 hgo
        rw [List.foldl_cons, submitOrder_terminal s o hgo, run_histLen os s hs]
        simp only [List.length_cons]
        omega
      · simp only [Bool.not_eq_true] at hgo
        have hlen' : (submitOrder s o).histWeek.length = s.histWeek.length + 1 := by
          rw [submitOrder_active s o hgo]
          simp
        have hbound := (hs.1 hgo).2
        rw [List.foldl_cons, run_histLen os _ (progressOK_step s o hs), hlen']
        simp only [List.length_cons]
        omega

/-- C9: the history length equals the number of completed rounds
(submissions, capped at `TOTAL_ROUNDS`); the session is terminal
exactly when `TOTAL_ROUNDS` submissions happened, equivalently exactly
when the history holds `TOTAL_ROUNDS` rows; and a terminal session
accepts no further week-advance transition. -/
theorem history_game_over_correspondence (demand orders : List ℤ) (o : ℤ) :
    (runGame demand orders).histWeek.length = min orders.length TOTAL_ROUNDS
    ∧ ((runGame demand orders).game_over = true ↔ TOTAL_ROUNDS ≤ orders.length)
    ∧ ((runGame demand orders).game_over = true
        ↔ (runGame demand orders).histWeek.length = TOTAL_ROUNDS)
    ∧ ((runGame demand orders).game_over = true
        → submitOrder (runGame demand orders) o = runGame demand orders) := by
  have hprog : ProgressOK (runGame demand orders) :=
    foldl_submit_invariant ProgressOK (fun t p ht => progressOK_step t p ht) orders _
      (progressOK_init demand)
  have hlen : (runGame demand orders).histWeek.length = min orders.length TOTAL_ROUNDS := by
    have h := run_histLen orders (initialize_game demand) (progressOK_init demand)
    simpa [runGame, initialize_game] using h
  have hiff2 : (runGame demand orders).game_over = true
      ↔ (runGame demand orders).histWeek.length = TOTAL_ROUNDS := by
    constructor
    · exact hprog.2
    · intro hl
      by_contra hc
      simp only [Bool.not_eq_true] at hc
      exact absurd hl (Nat.ne_of_lt (hprog.1 hc).2)
  refine ⟨hlen, ?_, hiff2, fun hgo => submitOrder_terminal _ o hgo⟩
  rw [hiff2, hlen]
  omega

/-- Witness for C9: a full 20-round game is terminal and a further
submission is a no-op. -/
theorem history_game_over_correspondence_witness :
    (runGame (List.replicate 20 (5 : ℤ)) (List.replicate 20 (12 : ℤ))).game_over = true
    ∧ submitOrder (runGame (List.replicate 20 (5 : ℤ)) (List.replicate 20 (12 : ℤ))) 7
        = runGame (List.replicate 20 (5 : ℤ)) (List.replicate 20 (12 : ℤ)) :=
  ⟨by decide,
    (history_game_over_correspondence (List.replicate 20 (5 : ℤ))
      (List.replicate 20 (12 : ℤ)) 7).2.2.2 (by decide)⟩

/-- All six history columns have the same length. -/
def HistOK (s : GameState) : Prop :=
  s.histDemand.length = s.histWeek.length
  ∧ s.histOrders.length = s.histWeek.length
  ∧ s.histInventory.length = s.histWeek.length
  ∧ s.histBackorders.length = s.histWeek.length
  ∧ s.histCost.length = s.histWeek.length

theorem histOK_step (s : GameState) (o : ℤ) (h : HistOK s) :
    HistOK (submitOrder s o) := by
  by_cases hgo : s.game_over
  · rwa [submitOrder_terminal s o hgo]
  · simp only [Bool.not_eq_true] at hgo
    obtain ⟨h1, h2, h3, h4, h5⟩ := h
    rw [HistOK, submitOrder_active s o hgo]
    dsimp
    simp only [List.length_append, List.length_singleton]
    omega

/-- C10: the six history columns start empty, each live submission
appends exactly one entry to each of them (and a terminal one appends
none), so in every reachable state all six have equal length — every
recorded round carries all six fields. -/
theorem history_columns_aligned (demand orders : List ℤ) (s : GameState) (o : ℤ) :
    ((initialize_game demand).histWeek = [] ∧ (initialize_game demand).histDemand = []
      ∧ (initialize_game demand).histOrders = []
      ∧ (initialize_game demand).histInventory = []
      ∧ (initialize_game demand).histBackorders = []
      ∧ (initialize_game demand).histCost = [])
    ∧ ((submitOrder s o).histWeek.length
          = s.histWeek.length + (if s.game_over then 0 else 1)
      ∧ (submitOrder s o).histDemand.length
          = s.histDemand.length + (if s.game_over then 0 else 1)
      ∧ (submitOrder s o).histOrders.length
          = s.histOrders.length + (if s.game_over then 0 else 1)
      ∧ (submitOrder s o).histInventory.length
          = s.histInventory.length + (if s.game_over then 0 else 1)
      ∧ (submitOrder s o).histBackorders.length
          = s.histBackorders.length + (if s.game_over then 0 else 1)
      ∧ (submitOrder s o).histCost.length
          = s.histCost.length + (if s.game_over then 0 else 1))
    ∧ ((runGame demand orders).histDemand.length = (runGame demand orders).histWeek.length
      ∧ (runGame demand orders).histOrders.length = (runGame demand orders).histWeek.length
      ∧ (runGame demand orders).histInventory.length
          = (runGame demand orders).histWeek.length
      ∧ (runGame demand orders).histBackorders.length
          = (runGame demand orders).histWeek.length
      ∧ (runGame demand orders).histCost.length = (runGame demand orders).histWeek.length) := by
  refine ⟨by simp [initialize_game], ?_, ?_⟩
  · by_cases hgo : s.game_over
    · simp [submitOrder_terminal s o hgo, hgo]
    · simp only [Bool.not_eq_true] at hgo
      rw [submitOrder_active s o hgo]
      simp [hgo]
  · exact foldl_submit_invariant HistOK (fun t p ht => histOK_step t p ht) orders _
      (by simp [HistOK, initialize_game])

end Bullwhip
